import Mathlib

/-!
Verification of the `notifycond` dispatcher (package `notifycond`, file
`notifycond.go`) against its specification.

The dispatcher is modelled shallowly: every mutex-protected critical section
of the Go code is one atomic step on a pure state value.  Go buffered
channels of `*pq.Notification` become capacity-bounded FIFO buffers whose
elements are `Option Notification` (a `none` element is the nil
`*pq.Notification`, the resync marker).  A Go panic is modelled as the
`none` result of an `Option`-returning function.
-/

deriving instance DecidableEq for Except

namespace Pq

/-- `pq.Notification` (immutable): channel name, backend pid, payload. -/
structure Notification where
  channel : String
  bePid : Int
  extra : String
deriving DecidableEq

/-- A Go buffered channel of `*pq.Notification` values.  `cap` is the buffer
capacity fixed at `make`; `buf` holds the queued values in FIFO order;
`isClosed` records whether `close` has been called on it. -/
structure GoChan where
  cap : Nat
  buf : List (Option Notification)
  isClosed : Bool
deriving DecidableEq

/-- Non-blocking send, Go `select { case ch <- n: default: }` (notifycond.go
lines 253-259): a send on a closed channel panics (`none`); when the buffer
is full the `default` branch is taken and the value dropped; otherwise the
value is enqueued. -/
def GoChan.trySend (c : GoChan) (v : Option Notification) : Option GoChan :=
  if c.isClosed then none
  else if c.buf.length < c.cap then some { c with buf := c.buf ++ [v] }
  else some c

/-- Go `close(ch)`: panics (`none`) on an already-closed channel. -/
def GoChan.closeChan (c : GoChan) : Option GoChan :=
  if c.isClosed then none else some { c with isClosed := true }

/-- Outcome of a consumer receive `<-ch` on a condition channel. -/
inductive RecvResult
  | value (v : Option Notification) (rest : GoChan)
  | closedEmpty
  | wouldBlock
deriving DecidableEq

/-- A receive takes the oldest buffered value; on an empty closed channel it
completes immediately with the zero value (`closedEmpty`); on an empty open
channel it blocks. -/
def GoChan.recv (c : GoChan) : RecvResult :=
  match c.buf with
  | v :: rest => .value v { c with buf := rest }
  | [] => if c.isClosed then .closedEmpty else .wouldBlock

/-- The error values surfaced by the dispatcher: `errClosed` (notifycond.go
line 72), `pq.ErrChannelAlreadyOpen`, `pq.ErrChannelNotOpen`, and opaque
errors passed through from the `pq.Listener`. -/
inductive PQError
  | errClosed
  | errChannelAlreadyOpen
  | errChannelNotOpen
  | sourceError (msg : String)
deriving DecidableEq

/-- Lookup in the `channels` map, represented as an association list with
unique keys. -/
def mapLookup : List (String × Nat) → String → Option Nat
  | [], _ => none
  | (k, v) :: rest, key => if k = key then some v else mapLookup rest key

/-- Go `delete(s.channels, channel)`: removes the (unique) entry with the
given key. -/
def mapDelete : List (String × Nat) → String → List (String × Nat)
  | [], _ => []
  | (k, v) :: rest, key => if k = key then rest else (k, v) :: mapDelete rest key

/-- The state of a `NotifyCond` (notifycond.go lines 74-86).  Condition
channels are stored in the arena `conds` and the `channels` map holds
indices into it, so that channel identity (compared by `removeChannel`) is
meaningful.  `closeChannelNil` records whether the `closeChannel` field
still holds the zero value of a Go channel type, which is the nil
channel. -/
structure NotifyCond where
  conds : List GoChan
  channels : List (String × Nat)
  closed : Bool
  broadcastOnPingTimeout : Bool
  closeChannelNil : Bool
deriving DecidableEq

/-- `NewNotifyCond` (lines 88-97): initializes the `channels` map and the
capacity-1 `newPingIntervalChannel`, but not `closeChannel`, which is
therefore left nil (`closeChannelNil := true`). -/
def NewNotifyCond : NotifyCond :=
  { conds := [], channels := [], closed := false,
    broadcastOnPingTimeout := false, closeChannelNil := true }

/-- Replace the condition channel stored at index `id`. -/
def setCond (s : NotifyCond) (id : Nat) (c : GoChan) : NotifyCond :=
  { s with conds := s.conds.set id c }

/-- `removeChannel` (lines 99-112): panics (`none`) when the topic is not in
the map or the mapped channel is not the expected one; otherwise deletes
the map entry. -/
def NotifyCond.removeChannel (s : NotifyCond) (channel : String) (id : Nat) :
    Option NotifyCond :=
  match mapLookup s.channels channel with
  | none => none
  | some oldid =>
    if oldid = id then some { s with channels := mapDelete s.channels channel }
    else none

/-- `Listen` (lines 125-149).  `srcListen` is the result of the external
`s.listener.Listen(channel)` call.  On success the index of the freshly
made capacity-1 channel is returned; on source failure the map entry is
rolled back via `removeChannel` and the error propagated. -/
def NotifyCond.Listen (s : NotifyCond) (channel : String) (srcListen : Option PQError) :
    Option (Except PQError Nat × NotifyCond) :=
  if s.closed then some (.error .errClosed, s)
  else if (mapLookup s.channels channel).isSome then
    some (.error .errChannelAlreadyOpen, s)
  else
    let id := s.conds.length
    let s1 : NotifyCond :=
      { s with conds := s.conds ++ [⟨1, [], false⟩],
               channels := s.channels ++ [(channel, id)] }
    match srcListen with
    | some e => (s1.removeChannel channel id).map fun s2 => (.error e, s2)
    | none => some (.ok id, s1)

/-- `Unlisten` (lines 161-185).  `srcUnlisten` is the result of the external
`s.listener.Unlisten(channel)` call.  On source failure the state is
returned unchanged; on success the entry is removed and the condition
channel closed.  A panic anywhere (from `removeChannel` or from `close` on
an already-closed channel) is `none`. -/
def NotifyCond.Unlisten (s : NotifyCond) (channel : String) (srcUnlisten : Option PQError) :
    Option (Option PQError × NotifyCond) :=
  if s.closed then some (some .errClosed, s)
  else
    match mapLookup s.channels channel with
    | none => some (some .errChannelNotOpen, s)
    | some id =>
      match srcUnlisten with
      | some e => some (some e, s)
      | none =>
        match s.removeChannel channel id with
        | none => none
        | some s1 =>
          match s1.conds[id]? with
          | none => none
          | some c => (c.closeChan).map fun c2 => (none, setCond s1 id c2)

/-- `notify` (lines 247-260), caller holding the lock: look the topic up; do
nothing when it is no longer registered; otherwise non-blocking send.  The
inner `none` branch (mapped index out of range) is a modelling artifact
that never occurs in a reachable state. -/
def NotifyCond.notify (s : NotifyCond) (channel : String) (n : Option Notification) :
    Option NotifyCond :=
  match mapLookup s.channels channel with
  | none => some s
  | some id =>
    match s.conds[id]? with
    | none => none
    | some c => (c.trySend n).map fun c2 => setCond s id c2

/-- The iteration of `broadcast` (lines 240-244) over the keys of the map. -/
def broadcastAux : NotifyCond → List String → Option NotifyCond
  | s, [] => some s
  | s, t :: rest =>
    match s.notify t none with
    | none => none
    | some s2 => broadcastAux s2 rest

/-- `broadcast` (lines 240-244), caller holding the lock: send a nil
`*pq.Notification` to every currently registered topic. -/
def NotifyCond.broadcast (s : NotifyCond) : Option NotifyCond :=
  broadcastAux s (s.channels.map Prod.fst)

/-- `Ping` (lines 188-190): forwards to `listener.Ping()` and surfaces its
error, touching no dispatcher state. -/
def NotifyCond.Ping (srcPing : Option PQError) : Option PQError := srcPing

/-- `pingTimeout` (lines 206-218): launches `s.listener.Ping()` in a fresh
goroutine and discards its result (`probeErr` does not influence the
outcome), then under the lock performs `broadcast` exactly when
`broadcastOnPingTimeout` is set. -/
def NotifyCond.pingTimeout (s : NotifyCond) (_probeErr : Option PQError) :
    Option NotifyCond :=
  if s.broadcastOnPingTimeout then s.broadcast else some s

/-- `shutdown` (lines 262-272): close every channel still in the map (the
map itself is not cleared).  `none` is a panic from `close` on an
already-closed channel. -/
def closeMapped : List (String × Nat) → List GoChan → Option (List GoChan)
  | [], conds => some conds
  | (_, id) :: rest, conds =>
    match conds[id]? with
    | none => none
    | some c =>
      match c.closeChan with
      | none => none
      | some c2 => closeMapped rest (conds.set id c2)

/-- `shutdown` (lines 262-272) as a state transformer. -/
def NotifyCond.shutdown (s : NotifyCond) : Option NotifyCond :=
  (closeMapped s.channels s.conds).map fun cs => { s with conds := cs }

/-- The possible outcomes of a `Close()` call. -/
inductive CloseOutcome
  | alreadyClosed
  | deadlocked (s : NotifyCond)
  | panicked
  | returned (err : Option PQError) (s : NotifyCond)
deriving DecidableEq

/-- `Close` (lines 223-236): under the lock, a second call returns
`errClosed`; otherwise `closed` is set and a value is sent on
`closeChannel`.  `NewNotifyCond` leaves `closeChannel` nil and a send on a
nil channel blocks forever, so the caller deadlocks while holding `s.lock`
(outcome `deadlocked`, carrying the state at the moment of blocking).  Were
`closeChannel` initialized, the dispatcher loop would receive the signal,
run `shutdown`, release `closeWaitGroup`, and `Close` would return the
result of `listener.Close()` (`srcClose`). -/
def NotifyCond.Close (s : NotifyCond) (srcClose : Option PQError) : CloseOutcome :=
  if s.closed then .alreadyClosed
  else
    let s1 : NotifyCond := { s with closed := true }
    if s1.closeChannelNil then .deadlocked s1
    else
      match s1.shutdown with
      | none => .panicked
      | some s2 => .returned srcClose s2

/-- Outcome of the channel send performed by `SetPingInterval`. -/
inductive SendOutcome
  | sent (slot : Option Int)
  | blockedForever
deriving DecidableEq

/-- `SetPingInterval` (lines 194-196): a bare send into the capacity-1
buffered `newPingIntervalChannel`.  No lock is taken, `s.closed` is never
consulted and the method has no error return.  `slot` is the current buffer
content and `loopReceiving` whether the dispatcher loop still reaches its
`select`: with a free slot the send completes at once; with a full slot it
completes only if the loop drains the buffer, and otherwise blocks the
caller forever. -/
def SetPingInterval (slot : Option Int) (loopReceiving : Bool) (interval : Int) :
    SendOutcome :=
  match slot with
  | none => .sent (some interval)
  | some _ => if loopReceiving then .sent (some interval) else .blockedForever

/-- Outcome of a call that must first acquire `s.lock`. -/
inductive SetFlagOutcome
  | blockedOnLock
  | done (s : NotifyCond)
deriving DecidableEq

/-- `SetBroadcastOnPingTimeout` (lines 200-204): acquire `s.lock`, set the
flag, unlock.  No `closed` check and no error return.  `lockHeldForever`
models the mutex being held by a caller that never releases it (the
deadlocked `Close`); the acquisition then blocks forever. -/
def NotifyCond.SetBroadcastOnPingTimeout (s : NotifyCond) (lockHeldForever : Bool)
    (b : Bool) : SetFlagOutcome :=
  if lockHeldForever then .blockedOnLock
  else .done { s with broadcastOnPingTimeout := b }

/-- The loop-local state of `mainDispatcherLoop` (lines 275-306):
`pingInterval` (nil until a `SetPingInterval` request is serviced),
whether `pingTimer` is armed, and whether a fired value is sitting unread
in the capacity-1 channel `pingTimer.C`. -/
structure LoopState where
  pingInterval : Option Int
  timerArmed : Bool
  timerFiredPending : Bool
deriving DecidableEq

/-- Loop entry (line 276): `pingTimer := time.NewTimer(1)` arms a
one-nanosecond timer; `pingInterval` starts nil. -/
def mainDispatcherInit : LoopState :=
  { pingInterval := none, timerArmed := true, timerFiredPending := false }

/-- Environment step: an armed timer's duration elapses and it delivers one
value into `pingTimer.C`.  For the initial `time.NewTimer(1)` this can
happen before the loop's first statement runs, since one nanosecond elapses
immediately. -/
def timerElapse (ls : LoopState) : LoopState :=
  if ls.timerArmed then { ls with timerArmed := false, timerFiredPending := true }
  else ls

/-- Top of each loop iteration (lines 279-283): `Reset` when an interval is
set, `Stop` otherwise.  Neither call drains a value already delivered into
`pingTimer.C`. -/
def rearm (ls : LoopState) : LoopState :=
  match ls.pingInterval with
  | some _ => { ls with timerArmed := true }
  | none => { ls with timerArmed := false }

/-- The select cases of `mainDispatcherLoop` (lines 285-304). -/
inductive LoopEvent
  | inbound (n : Option Notification)
  | closeSignal
  | timerFire
  | newPingInterval (d : Int)
deriving DecidableEq

/-- Result of one loop iteration: the dispatcher state, the loop state,
whether a keepalive probe goroutine was launched, and whether the loop
returned. -/
structure StepResult where
  s : NotifyCond
  ls : LoopState
  probeIssued : Bool
  exited : Bool
deriving DecidableEq

/-- One iteration of `mainDispatcherLoop` (lines 278-305): rearm or stop the
timer, then service one ready select case.  `timerFire` is ready only when
a value sits in `pingTimer.C`; `closeSignal` can only ever be serviced when
`closeChannel` is non-nil, because a receive on a nil channel is never
ready.  `probeErr` is the (discarded) result of the probe goroutine a timer
fire launches.  `none` covers both a case that is not ready and a panic in
the body. -/
def loopStep (s : NotifyCond) (ls0 : LoopState) (ev : LoopEvent)
    (probeErr : Option PQError) : Option StepResult :=
  let ls := rearm ls0
  match ev with
  | .inbound none => s.broadcast.map fun s2 => ⟨s2, ls, false, false⟩
  | .inbound (some n) => (s.notify n.channel (some n)).map fun s2 => ⟨s2, ls, false, false⟩
  | .closeSignal =>
    if s.closeChannelNil then none
    else s.shutdown.map fun s2 => ⟨s2, ls, false, true⟩
  | .timerFire =>
    if ls.timerFiredPending then
      (s.pingTimeout probeErr).map
        fun s2 => ⟨s2, { ls with timerFiredPending := false }, true, false⟩
    else none
  | .newPingInterval d => some ⟨s, { ls with pingInterval := some d }, false, false⟩

/-- Well-formedness of a dispatcher state, invariant under all reachable
steps: every condition channel ever made has capacity 1 and respects its
capacity; the map holds valid indices of open channels; keys and values of
the map are free of duplicates. -/
structure WF (s : NotifyCond) : Prop where
  capOne : ∀ c ∈ s.conds, c.cap = 1
  bufLe : ∀ c ∈ s.conds, c.buf.length ≤ c.cap
  inRange : ∀ p ∈ s.channels, p.2 < s.conds.length
  mappedOpen : ∀ p ∈ s.channels, ∀ c, s.conds[p.2]? = some c → c.isClosed = false
  keysNodup : (s.channels.map Prod.fst).Nodup
  valsNodup : (s.channels.map Prod.snd).Nodup

/-- The lock-serialized atomic steps the implementation can take, starting
from `NewNotifyCond`: the API calls `Listen` and `Unlisten` (with either
outcome of the source round-trip), the loop bodies `notify`, `broadcast`
and `pingTimeout`, `SetBroadcastOnPingTimeout`, the first half of `Close`
(which sets `closed` and then blocks on the nil `closeChannel`), and a
consumer receiving from its condition channel. -/
inductive Reachable : NotifyCond → Prop
  | init : Reachable NewNotifyCond
  | listenStep {s t r res s2} : Reachable s → s.Listen t r = some (res, s2) → Reachable s2
  | unlistenStep {s t r res s2} : Reachable s → s.Unlisten t r = some (res, s2) →
      Reachable s2
  | notifyStep {s t n s2} : Reachable s → s.notify t n = some s2 → Reachable s2
  | broadcastStep {s s2} : Reachable s → s.broadcast = some s2 → Reachable s2
  | pingTimeoutStep {s e s2} : Reachable s → s.pingTimeout e = some s2 → Reachable s2
  | setFlagStep {s b s2} : Reachable s → s.SetBroadcastOnPingTimeout false b = .done s2 →
      Reachable s2
  | closeBeginStep {s} : Reachable s → Reachable { s with closed := true }
  | recvStep {s id c v rest} : Reachable s → s.conds[id]? = some c →
      c.recv = .value v rest → Reachable (setCond s id rest)

theorem mapLookup_mem {m : List (String × Nat)} {t : String} {id : Nat}
    (h : mapLookup m t = some id) : (t, id) ∈ m := by
  induction m with
  | nil => cases h
  | cons q rest ih =>
    obtain ⟨k, v⟩ := q
    rw [mapLookup] at h
    by_cases hk : k = t
    · rw [if_pos hk] at h
      cases h
      rw [hk]
      exact List.mem_cons_self _ _
    · rw [if_neg hk] at h
      exact List.mem_cons_of_mem _ (ih h)

theorem mapLookup_none_key {m : List (String × Nat)} {t : String}
    (h : mapLookup m t = none) : ∀ p ∈ m, p.1 ≠ t := by
  induction m with
  | nil =>
    intro p hp
    cases hp
  | cons q rest ih =>
    obtain ⟨k, v⟩ := q
    rw [mapLookup] at h
    by_cases hk : k = t
    · rw [if_pos hk] at h
      cases h
    · rw [if_neg hk] at h
      intro p hp
      rcases List.mem_cons.mp hp with hp1 | hp1
      · rw [hp1]
        exact hk
      · exact ih h p hp1

theorem mapLookup_key_none {m : List (String × Nat)} {t : String}
    (h : ∀ p ∈ m, p.1 ≠ t) : mapLookup m t = none := by
  induction m with
  | nil => rfl
  | cons q rest ih =>
    obtain ⟨k, v⟩ := q
    rw [mapLookup, if_neg (h (k, v) (List.mem_cons_self _ _))]
    exact ih fun p hp => h p (List.mem_cons_of_mem _ hp)

theorem mapLookup_append {m m2 : List (String × Nat)} {t : String}
    (h : mapLookup m t = none) : mapLookup (m ++ m2) t = mapLookup m2 t := by
  induction m with
  | nil => rfl
  | cons q rest ih =>
    obtain ⟨k, v⟩ := q
    rw [mapLookup] at h
    by_cases hk : k = t
    · rw [if_pos hk] at h
      cases h
    · rw [if_neg hk] at h
      rw [List.cons_append, mapLookup, if_neg hk]
      exact ih h

theorem mapDelete_append {m : List (String × Nat)} {t : String} {id : Nat}
    (h : mapLookup m t = none) : mapDelete (m ++ [(t, id)]) t = m := by
  induction m with
  | nil => rw [List.nil_append, mapDelete, if_pos rfl]
  | cons q rest ih =>
    obtain ⟨k, v⟩ := q
    rw [mapLookup] at h
    by_cases hk : k = t
    · rw [if_pos hk] at h
      cases h
    · rw [if_neg hk] at h
      rw [List.cons_append, mapDelete, if_neg hk, ih h]

theorem mapDelete_sublist (m : List (String × Nat)) (t : String) :
    List.Sublist (mapDelete m t) m := by
  induction m with
  | nil => exact List.Sublist.refl _
  | cons q rest ih =>
    obtain ⟨k, v⟩ := q
    rw [mapDelete]
    by_cases hk : k = t
    · rw [if_pos hk]
      exact List.sublist_cons_self _ _
    · rw [if_neg hk]
      exact List.Sublist.cons₂ _ ih

theorem mapDelete_keys {m : List (String × Nat)} {t : String}
    (hnd : (m.map Prod.fst).Nodup) : ∀ p ∈ mapDelete m t, p.1 ≠ t := by
  induction m with
  | nil =>
    intro p hp
    cases hp
  | cons q rest ih =>
    obtain ⟨k, v⟩ := q
    rw [List.map_cons, List.nodup_cons] at hnd
    rw [mapDelete]
    by_cases hk : k = t
    · rw [if_pos hk]
      intro p hp hpt
      have hmem : p.1 ∈ List.map Prod.fst rest := List.mem_map_of_mem Prod.fst hp
      rw [hpt, ← hk] at hmem
      exact hnd.1 hmem
    · rw [if_neg hk]
      intro p hp
      rcases List.mem_cons.mp hp with hp1 | hp1
      · rw [hp1]
        exact hk
      · exact ih hnd.2 p hp1

theorem set_of_getElem? {α : Type} {l : List α} {i : Nat} {a : α}
    (h : l[i]? = some a) : l.set i a = l := by
  induction l generalizing i with
  | nil => simp at h
  | cons x xs ih =>
    cases i with
    | zero =>
      rw [List.getElem?_cons_zero] at h
      cases h
      rfl
    | succ j =>
      rw [List.getElem?_cons_succ] at h
      show x :: xs.set j a = x :: xs
      rw [ih h]

theorem set_append_length {α : Type} (l : List α) (a b : α) :
    (l ++ [a]).set l.length b = l ++ [b] := by
  induction l with
  | nil => rfl
  | cons x xs ih =>
    show x :: (xs ++ [a]).set xs.length b = x :: (xs ++ [b])
    rw [ih]

theorem nodup_append_singleton {α : Type} {l : List α} {a : α}
    (hl : l.Nodup) (ha : a ∉ l) : (l ++ [a]).Nodup := by
  induction l with
  | nil => exact List.nodup_cons.mpr ⟨List.not_mem_nil a, List.nodup_nil⟩
  | cons x xs ih =>
    rw [List.nodup_cons] at hl
    rw [List.cons_append, List.nodup_cons]
    refine ⟨?_, ih hl.2 fun hm => ha (List.mem_cons_of_mem _ hm)⟩
    intro hx
    rcases List.mem_append.mp hx with hx | hx
    · exact hl.1 hx
    · rw [List.mem_singleton] at hx
      exact ha (hx ▸ List.mem_cons_self _ _)

theorem vals_inj {m : List (String × Nat)} (hnd : (m.map Prod.snd).Nodup)
    {p q : String × Nat} (hp : p ∈ m) (hq : q ∈ m) (h2 : p.2 = q.2) : p = q := by
  induction m with
  | nil => cases hp
  | cons r rest ih =>
    rw [List.map_cons, List.nodup_cons] at hnd
    rcases List.mem_cons.mp hp with hp1 | hp1 <;> rcases List.mem_cons.mp hq with hq1 | hq1
    · rw [hp1, hq1]
    · exact absurd (h2 ▸ List.mem_map_of_mem Prod.snd hq1) (hp1 ▸ hnd.1)
    · exact absurd (h2 ▸ List.mem_map_of_mem Prod.snd hp1) (hq1 ▸ hnd.1)
    · exact ih hnd.2 hp1 hq1

theorem WF.lookup_cond {s : NotifyCond} (hwf : WF s) {t : String} {id : Nat}
    (hl : mapLookup s.channels t = some id) :
    id < s.conds.length ∧
      ∃ c, s.conds[id]? = some c ∧ c.isClosed = false ∧ c.cap = 1 ∧ c.buf.length ≤ 1 := by
  have hmem := mapLookup_mem hl
  have hid := hwf.inRange _ hmem
  have hc : s.conds[id]? = some (s.conds[id]) := List.getElem?_eq_getElem hid
  have hcm : s.conds[id] ∈ s.conds := List.getElem_mem hid
  exact ⟨hid, s.conds[id], hc, hwf.mappedOpen _ hmem _ hc,
    hwf.capOne _ hcm, (hwf.capOne _ hcm) ▸ hwf.bufLe _ hcm⟩

theorem removeChannel_eq {s : NotifyCond} {t : String} {id : Nat}
    (hl : mapLookup s.channels t = some id) :
    s.removeChannel t id = some { s with channels := mapDelete s.channels t } := by
  simp [NotifyCond.removeChannel, hl]

theorem notify_unmapped {s : NotifyCond} {t : String} (n : Option Notification)
    (h : mapLookup s.channels t = none) : s.notify t n = some s := by
  rw [NotifyCond.notify, h]

theorem notify_mapped {s : NotifyCond} {t : String} {id : Nat} {c : GoChan}
    (n : Option Notification)
    (hl : mapLookup s.channels t = some id) (hc : s.conds[id]? = some c)
    (hcl : c.isClosed = false) :
    s.notify t n
      = some (setCond s id
          (if c.buf.length < c.cap then { c with buf := c.buf ++ [n] } else c)) := by
  simp only [NotifyCond.notify, hl, hc, GoChan.trySend, hcl, Bool.false_eq_true, if_false]
  by_cases hlen : c.buf.length < c.cap
  · rw [if_pos hlen, if_pos hlen]
    rfl
  · rw [if_neg hlen, if_neg hlen]
    rfl

theorem Listen_closed {s : NotifyCond} {t : String} (r : Option PQError)
    (h : s.closed = true) : s.Listen t r = some (.error .errClosed, s) := by
  rw [NotifyCond.Listen, h]
  rfl

theorem Listen_dup {s : NotifyCond} {t : String} (r : Option PQError)
    (h1 : s.closed = false) (h2 : (mapLookup s.channels t).isSome) :
    s.Listen t r = some (.error .errChannelAlreadyOpen, s) := by
  rw [NotifyCond.Listen, h1, h2]
  rfl

theorem Listen_ok {s : NotifyCond} {t : String}
    (h1 : s.closed = false) (h2 : mapLookup s.channels t = none) :
    s.Listen t none = some (.ok s.conds.length,
      { s with conds := s.conds ++ [⟨1, [], false⟩],
               channels := s.channels ++ [(t, s.conds.length)] }) := by
  rw [NotifyCond.Listen, h1, h2]
  rfl

theorem Listen_rollback {s : NotifyCond} {t : String} (e : PQError)
    (h1 : s.closed = false) (h2 : mapLookup s.channels t = none) :
    s.Listen t (some e)
      = some (.error e, { s with conds := s.conds ++ [⟨1, [], false⟩] }) := by
  have hl2 : mapLookup (s.channels ++ [(t, s.conds.length)]) t = some s.conds.length := by
    rw [mapLookup_append h2, mapLookup, if_pos rfl]
  simp only [NotifyCond.Listen, h1, Bool.false_eq_true, if_false, h2, Option.isSome_none,
    NotifyCond.removeChannel]
  simp only [hl2, if_pos rfl]
  rw [mapDelete_append h2]
  simp

theorem Unlisten_closed {s : NotifyCond} {t : String} (r : Option PQError)
    (h : s.closed = true) : s.Unlisten t r = some (some .errClosed, s) := by
  rw [NotifyCond.Unlisten, h]
  rfl

theorem Unlisten_absent {s : NotifyCond} {t : String} (r : Option PQError)
    (h1 : s.closed = false) (h2 : mapLookup s.channels t = none) :
    s.Unlisten t r = some (some .errChannelNotOpen, s) := by
  rw [NotifyCond.Unlisten, h1]
  show (match mapLookup s.channels t with
    | none => some (some PQError.errChannelNotOpen, s)
    | some id => _) = _
  rw [h2]

theorem Unlisten_srcFail {s : NotifyCond} {t : String} {id : Nat} (e : PQError)
    (h1 : s.closed = false) (hl : mapLookup s.channels t = some id) :
    s.Unlisten t (some e) = some (some e, s) := by
  rw [NotifyCond.Unlisten, h1]
  show (match mapLookup s.channels t with
    | none => some (some PQError.errChannelNotOpen, s)
    | some id => some (some e, s)) = _
  rw [hl]

theorem Unlisten_ok {s : NotifyCond} {t : String} {id : Nat} {c : GoChan}
    (h1 : s.closed = false) (hl : mapLookup s.channels t = some id)
    (hc : s.conds[id]? = some c) (hcl : c.isClosed = false) :
    s.Unlisten t none = some (none,
      setCond { s with channels := mapDelete s.channels t } id
        { c with isClosed := true }) := by
  simp only [NotifyCond.Unlisten, h1, Bool.false_eq_true, if_false, hl,
    NotifyCond.removeChannel, GoChan.closeChan]
  have hc2 : ({ s with channels := mapDelete s.channels t } : NotifyCond).conds[id]? = some c := hc
  simp [hc2, hcl]

theorem WF_new : WF NewNotifyCond := by
  constructor
  · intro c hc
    cases hc
  · intro c hc
    cases hc
  · intro p hp
    cases hp
  · intro p hp
    cases hp
  · exact List.nodup_nil
  · exact List.nodup_nil

theorem WF_conds_extend {s : NotifyCond} (hwf : WF s) :
    WF { s with conds := s.conds ++ [⟨1, [], false⟩] } := by
  constructor
  · intro c hc
    rcases List.mem_append.mp hc with hc | hc
    · exact hwf.capOne c hc
    · rw [List.mem_singleton] at hc
      rw [hc]
  · intro c hc
    rcases List.mem_append.mp hc with hc | hc
    · exact hwf.bufLe c hc
    · rw [List.mem_singleton] at hc
      rw [hc]
      exact Nat.zero_le _
  · intro p hp
    have := hwf.inRange p hp
    rw [List.length_append]
    omega
  · intro p hp c hc
    have hlt := hwf.inRange p hp
    rw [List.getElem?_append_left hlt] at hc
    exact hwf.mappedOpen p hp c hc
  · exact hwf.keysNodup
  · exact hwf.valsNodup

theorem WF_listen_ok {s : NotifyCond} {t : String} (hwf : WF s)
    (hl : mapLookup s.channels t = none) :
    WF { s with conds := s.conds ++ [⟨1, [], false⟩],
                channels := s.channels ++ [(t, s.conds.length)] } := by
  constructor
  · intro c hc
    rcases List.mem_append.mp hc with hc | hc
    · exact hwf.capOne c hc
    · rw [List.mem_singleton] at hc
      rw [hc]
  · intro c hc
    rcases List.mem_append.mp hc with hc | hc
    · exact hwf.bufLe c hc
    · rw [List.mem_singleton] at hc
      rw [hc]
      exact Nat.zero_le _
  · intro p hp
    rw [List.length_append]
    rcases List.mem_append.mp hp with hp | hp
    · have := hwf.inRange p hp
      omega
    · rw [List.mem_singleton] at hp
      rw [hp]
      simp
  · intro p hp c hc
    rcases List.mem_append.mp hp with hp | hp
    · rw [List.getElem?_append_left (hwf.inRange p hp)] at hc
      exact hwf.mappedOpen p hp c hc
    · rw [List.mem_singleton] at hp
      rw [hp] at hc
      rw [List.getElem?_concat_length] at hc
      cases hc
      rfl
  · rw [List.map_append]
    refine nodup_append_singleton hwf.keysNodup ?_
    intro hmem
    rcases List.mem_map.mp hmem with ⟨p, hp, hfst⟩
    exact mapLookup_none_key hl p hp hfst
  · rw [List.map_append]
    refine nodup_append_singleton hwf.valsNodup ?_
    intro hmem
    rcases List.mem_map.mp hmem with ⟨p, hp, hsnd⟩
    have := hwf.inRange p hp
    omega

theorem WF_setCond {s : NotifyCond} {id : Nat} {c c2 : GoChan} (hwf : WF s)
    (hc : s.conds[id]? = some c) (hcap : c2.cap = c.cap) (hcl : c2.isClosed = c.isClosed)
    (hbuf : c2.buf.length ≤ c2.cap) : WF (setCond s id c2) := by
  have hcm : c ∈ s.conds := List.getElem?_mem hc
  constructor
  · intro d hd
    rcases List.mem_or_eq_of_mem_set hd with hd | hd
    · exact hwf.capOne d hd
    · rw [hd, hcap]
      exact hwf.capOne c hcm
  · intro d hd
    rcases List.mem_or_eq_of_mem_set hd with hd | hd
    · exact hwf.bufLe d hd
    · rw [hd]
      exact hbuf
  · intro p hp
    rw [setCond, List.length_set]
    exact hwf.inRange p hp
  · intro p hp d hd
    by_cases hid : id = p.2
    · obtain ⟨hlt, -⟩ := List.getElem?_eq_some.mp hc
      rw [setCond] at hd
      rw [← hid] at hd
      rw [List.getElem?_set_self hlt] at hd
      cases hd
      rw [hcl]
      rw [hid] at hc
      exact hwf.mappedOpen p hp c hc
    · rw [setCond] at hd
      rw [List.getElem?_set_ne hid] at hd
      exact hwf.mappedOpen p hp d hd
  · exact hwf.keysNodup
  · exact hwf.valsNodup

theorem WF_notify {s s2 : NotifyCond} {t : String} {n : Option Notification}
    (hwf : WF s) (h : s.notify t n = some s2) : WF s2 := by
  cases hl : mapLookup s.channels t with
  | none =>
    rw [notify_unmapped n hl] at h
    cases h
    exact hwf
  | some id =>
    obtain ⟨hid, c, hc, hclosed, hcap, hbuf⟩ := hwf.lookup_cond hl
    rw [notify_mapped n hl hc hclosed] at h
    cases h
    by_cases hlen : c.buf.length < c.cap
    · rw [if_pos hlen]
      refine WF_setCond hwf hc rfl rfl ?_
      rw [List.length_append]
      simp only [List.length_cons, List.length_nil]
      omega
    · rw [if_neg hlen]
      exact WF_setCond hwf hc rfl rfl (hwf.bufLe c (List.getElem?_mem hc))

theorem WF_broadcastAux {keys : List String} {s s2 : NotifyCond}
    (hwf : WF s) (h : broadcastAux s keys = some s2) : WF s2 := by
  induction keys generalizing s with
  | nil =>
    rw [broadcastAux] at h
    cases h
    exact hwf
  | cons t rest ih =>
    rw [broadcastAux] at h
    cases hn : s.notify t none with
    | none =>
      rw [hn] at h
      cases h
    | some s1 =>
      rw [hn] at h
      exact ih (WF_notify hwf hn) h

theorem WF_broadcast {s s2 : NotifyCond} (hwf : WF s) (h : s.broadcast = some s2) :
    WF s2 := by
  rw [NotifyCond.broadcast] at h
  exact WF_broadcastAux hwf h

theorem WF_pingTimeout {s s2 : NotifyCond} {e : Option PQError}
    (hwf : WF s) (h : s.pingTimeout e = some s2) : WF s2 := by
  rw [NotifyCond.pingTimeout] at h
  by_cases hb : s.broadcastOnPingTimeout = true
  · rw [if_pos hb] at h
    exact WF_broadcast hwf h
  · rw [if_neg hb] at h
    cases h
    exact hwf

theorem WF_listen {s s2 : NotifyCond} {t : String} {r : Option PQError}
    {res : Except PQError Nat} (hwf : WF s) (h : s.Listen t r = some (res, s2)) :
    WF s2 := by
  by_cases hcl : s.closed = true
  · rw [Listen_closed r hcl] at h
    cases h
    exact hwf
  · rw [Bool.not_eq_true] at hcl
    cases hl : mapLookup s.channels t with
    | some id =>
      rw [Listen_dup r hcl (by rw [hl]; rfl)] at h
      cases h
      exact hwf
    | none =>
      cases r with
      | none =>
        rw [Listen_ok hcl hl] at h
        cases h
        exact WF_listen_ok hwf hl
      | some e =>
        rw [Listen_rollback e hcl hl] at h
        cases h
        exact WF_conds_extend hwf

theorem WF_unlisten_ok {s : NotifyCond} {t : String} {id : Nat} {c : GoChan}
    (hwf : WF s) (hl : mapLookup s.channels t = some id) (hc : s.conds[id]? = some c) :
    WF (setCond { s with channels := mapDelete s.channels t } id
          { c with isClosed := true }) := by
  have hcm : c ∈ s.conds := List.getElem?_mem hc
  have hsub := mapDelete_sublist s.channels t
  constructor
  · intro d hd
    rcases List.mem_or_eq_of_mem_set hd with hd | hd
    · exact hwf.capOne d hd
    · rw [hd]
      exact hwf.capOne c hcm
  · intro d hd
    rcases List.mem_or_eq_of_mem_set hd with hd | hd
    · exact hwf.bufLe d hd
    · rw [hd]
      exact hwf.bufLe c hcm
  · intro p hp
    rw [setCond, List.length_set]
    exact hwf.inRange p (hsub.subset hp)
  · intro p hp d hd
    have hpmem : p ∈ s.channels := hsub.subset hp
    have hpt : p.1 ≠ t := mapDelete_keys hwf.keysNodup p hp
    have hpid : id ≠ p.2 := by
      intro heq
      have hpeq : p = (t, id) :=
        vals_inj hwf.valsNodup hpmem (mapLookup_mem hl) (by rw [← heq])
      exact hpt (by rw [hpeq])
    rw [setCond] at hd
    rw [List.getElem?_set_ne hpid] at hd
    exact hwf.mappedOpen p hpmem d hd
  · exact List.Nodup.sublist (hsub.map Prod.fst) hwf.keysNodup
  · exact List.Nodup.sublist (hsub.map Prod.snd) hwf.valsNodup

theorem WF_unlisten {s s2 : NotifyCond} {t : String} {r res : Option PQError}
    (hwf : WF s) (h : s.Unlisten t r = some (res, s2)) : WF s2 := by
  by_cases hcl : s.closed = true
  · rw [Unlisten_closed r hcl] at h
    cases h
    exact hwf
  · rw [Bool.not_eq_true] at hcl
    cases hl : mapLookup s.channels t with
    | none =>
      rw [Unlisten_absent r hcl hl] at h
      cases h
      exact hwf
    | some id =>
      obtain ⟨hid, c, hc, hclosed, -, -⟩ := hwf.lookup_cond hl
      cases r with
      | some e =>
        rw [Unlisten_srcFail e hcl hl] at h
        cases h
        exact hwf
      | none =>
        rw [Unlisten_ok hcl hl hc hclosed] at h
        cases h
        exact WF_unlisten_ok hwf hl hc

theorem WF_recv {s : NotifyCond} {id : Nat} {c : GoChan} {v : Option Notification}
    {rest : GoChan} (hwf : WF s) (hc : s.conds[id]? = some c)
    (hr : c.recv = .value v rest) : WF (setCond s id rest) := by
  cases hbuf : c.buf with
  | nil =>
    simp only [GoChan.recv, hbuf] at hr
    by_cases hcl : c.isClosed = true
    · rw [if_pos hcl] at hr
      cases hr
    · rw [if_neg hcl] at hr
      cases hr
  | cons w tail =>
    simp only [GoChan.recv, hbuf] at hr
    cases hr
    refine WF_setCond hwf hc rfl rfl ?_
    show tail.length ≤ c.cap
    have := hwf.bufLe c (List.getElem?_mem hc)
    rw [hbuf] at this
    simp only [List.length_cons] at this
    omega

theorem lookup_isSome_of_mem_keys {m : List (String × Nat)} {t : String}
    (h : t ∈ m.map Prod.fst) : (mapLookup m t).isSome := by
  induction m with
  | nil => cases h
  | cons p rest ih =>
    obtain ⟨k, v⟩ := p
    rw [mapLookup]
    by_cases hk : k = t
    · rw [if_pos hk]
      rfl
    · rw [if_neg hk]
      rw [List.map_cons] at h
      rcases List.mem_cons.mp h with h1 | h1
      · exact absurd h1.symm hk
      · exact ih h1

theorem mapped_ids_distinct {s : NotifyCond} (hwf : WF s) {t1 t2 : String}
    {id1 id2 : Nat} (h1 : mapLookup s.channels t1 = some id1)
    (h2 : mapLookup s.channels t2 = some id2) (hne : t1 ≠ t2) : id1 ≠ id2 := by
  intro heq
  have hpq : (t1, id1) = (t2, id2) :=
    vals_inj hwf.valsNodup (mapLookup_mem h1) (mapLookup_mem h2) heq
  exact hne (congrArg Prod.fst hpq)

/-- On a capacity-1 channel, the non-blocking send either fills an empty
buffer or drops the value. -/
theorem capOne_send_eq {c : GoChan} (hcap : c.cap = 1) (v : Option Notification) :
    (if c.buf.length < c.cap then { c with buf := c.buf ++ [v] } else c)
      = if c.buf.isEmpty then { c with buf := [v] } else c := by
  cases hbuf : c.buf with
  | nil =>
    rw [hcap]
    simp
  | cons w tail =>
    rw [hcap]
    simp

/-- The central description of `broadcast`'s iteration over a list of
topics, relative to the starting state: it never panics, leaves the map
intact, enqueues the nil marker into the channel of every listed topic that
has room (dropping it when a value is already pending), and leaves every
index not mapped from a listed topic untouched. -/
theorem broadcastAux_spec (keys : List String) (s : NotifyCond) (hwf : WF s)
    (hnd : keys.Nodup) (hkeys : ∀ t ∈ keys, (mapLookup s.channels t).isSome) :
    ∃ s2, broadcastAux s keys = some s2 ∧ s2.channels = s.channels ∧
      s2.closed = s.closed ∧
      s2.conds.length = s.conds.length ∧
      (∀ t id, t ∈ keys → mapLookup s.channels t = some id →
        ∃ c, s.conds[id]? = some c ∧
          s2.conds[id]? = some (if c.buf.isEmpty then { c with buf := [none] } else c)) ∧
      (∀ j, (∀ t ∈ keys, mapLookup s.channels t ≠ some j) →
        s2.conds[j]? = s.conds[j]?) := by
  induction keys generalizing s with
  | nil =>
    refine ⟨s, rfl, rfl, rfl, rfl, ?_, fun j _ => rfl⟩
    intro t id ht
    cases ht
  | cons t1 rest ih =>
    rw [List.nodup_cons] at hnd
    have hl1some := hkeys t1 (List.mem_cons_self _ _)
    cases hl1case : mapLookup s.channels t1 with
    | none =>
      rw [hl1case] at hl1some
      cases hl1some
    | some id1 =>
      obtain ⟨hid1, c1, hc1, hclosed1, hcap1, hbuf1⟩ := hwf.lookup_cond hl1case
      have hstep := notify_mapped (n := none) hl1case hc1 hclosed1
      rw [capOne_send_eq hcap1] at hstep
      obtain ⟨c1', hc1'⟩ :
          ∃ c1', (if c1.buf.isEmpty then { c1 with buf := [(none : Option Notification)] }
            else c1) = c1' := ⟨_, rfl⟩
      rw [hc1'] at hstep
      have hwf1 : WF (setCond s id1 c1') := WF_notify hwf hstep
      have hkeys1 : ∀ u ∈ rest, (mapLookup (setCond s id1 c1').channels u).isSome :=
        fun u hu => hkeys u (List.mem_cons_of_mem _ hu)
      obtain ⟨s2, hb, hch, hcld, hlen, hmapped, huntouched⟩ :=
        ih (setCond s id1 c1') hwf1 hnd.2 hkeys1
      have hchs : (setCond s id1 c1').channels = s.channels := rfl
      have hne_of_mem : ∀ u ∈ rest, u ≠ t1 := by
        intro u hu heq
        exact hnd.1 (heq ▸ hu)
      refine ⟨s2, ?_, ?_, ?_, ?_, ?_, ?_⟩
      · rw [broadcastAux, hstep]
        exact hb
      · rw [hch]
        rfl
      · rw [hcld]
        rfl
      · rw [hlen]
        show (s.conds.set id1 c1').length = s.conds.length
        rw [List.length_set]
      · intro u id hu hlu
        rcases List.mem_cons.mp hu with hu1 | hu1
        · have hideq : id = id1 := by
            rw [hu1] at hlu
            rw [hl1case] at hlu
            exact (Option.some_inj.mp hlu).symm
          refine ⟨c1, by rw [hideq]; exact hc1, ?_⟩
          have hunt : ∀ u2 ∈ rest, mapLookup (setCond s id1 c1').channels u2 ≠ some id1 := by
            intro u2 hu2 heq
            have heqs : mapLookup s.channels u2 = some id1 := heq
            exact mapped_ids_distinct hwf heqs hl1case (hne_of_mem u2 hu2) rfl
          have h1 := huntouched id1 hunt
          have h2 : (s.conds.set id1 c1')[id1]? = some c1' := List.getElem?_set_self hid1
          rw [hideq, h1, hc1']
          exact h2
        · have hlu1 : mapLookup (setCond s id1 c1').channels u = some id := hlu
          obtain ⟨c, hcs1, hcs2⟩ := hmapped u id hu1 hlu1
          have hne : id1 ≠ id :=
            mapped_ids_distinct hwf hl1case hlu (fun h => hne_of_mem u hu1 h.symm)
          have hcs1' : (s.conds.set id1 c1')[id]? = some c := hcs1
          rw [List.getElem?_set_ne hne] at hcs1'
          exact ⟨c, hcs1', hcs2⟩
      · intro j hj
        have hj1 : ∀ u ∈ rest, mapLookup (setCond s id1 c1').channels u ≠ some j :=
          fun u hu => hj u (List.mem_cons_of_mem _ hu)
        have hjne : id1 ≠ j := by
          intro heq
          exact hj t1 (List.mem_cons_self _ _) (heq ▸ hl1case)
        have h1 := huntouched j hj1
        have h2 : (s.conds.set id1 c1')[j]? = s.conds[j]? := List.getElem?_set_ne hjne
        rw [h1]
        exact h2

theorem reachable_wf {s : NotifyCond} (h : Reachable s) : WF s := by
  induction h with
  | init => exact WF_new
  | listenStep _ hstep ih => exact WF_listen ih hstep
  | unlistenStep _ hstep ih => exact WF_unlisten ih hstep
  | notifyStep _ hstep ih => exact WF_notify ih hstep
  | broadcastStep _ hstep ih => exact WF_broadcast ih hstep
  | pingTimeoutStep _ hstep ih => exact WF_pingTimeout ih hstep
  | setFlagStep _ hstep ih =>
    rw [NotifyCond.SetBroadcastOnPingTimeout, if_neg Bool.false_ne_true] at hstep
    cases hstep
    exact ⟨ih.capOne, ih.bufLe, ih.inRange, ih.mappedOpen, ih.keysNodup, ih.valsNodup⟩
  | closeBeginStep _ ih =>
    exact ⟨ih.capOne, ih.bufLe, ih.inRange, ih.mappedOpen, ih.keysNodup, ih.valsNodup⟩
  | recvStep _ hc hr ih => exact WF_recv ih hc hr

/-- C1: the claim says `Close()` on an OPEN dispatcher always returns and
afterwards every channel returned by `Listen` is closed.  The code violates
this: `NewNotifyCond` never initializes `closeChannel`, so it is the nil
channel and the send `s.closeChannel <- struct{}{}` in `Close` blocks
forever.  Concretely: after `Listen("work")` succeeds, `Close` deadlocks
(holding `s.lock`), the condition channel stays open, and a read on it
would block rather than complete with a closed indication. -/
theorem close_deadlocks_and_channels_stay_open :
    NewNotifyCond.Listen "work" none
      = some (.ok 0,
          { conds := [⟨1, [], false⟩], channels := [("work", 0)], closed := false,
            broadcastOnPingTimeout := false, closeChannelNil := true }) ∧
    NotifyCond.Close
      { conds := [⟨1, [], false⟩], channels := [("work", 0)], closed := false,
        broadcastOnPingTimeout := false, closeChannelNil := true } none
      = .deadlocked
          { conds := [⟨1, [], false⟩], channels := [("work", 0)], closed := true,
            broadcastOnPingTimeout := false, closeChannelNil := true } ∧
    (Option.some (⟨1, [], false⟩ : GoChan)
        = ({ conds := [⟨1, [], false⟩], channels := [("work", 0)], closed := true,
             broadcastOnPingTimeout := false,
             closeChannelNil := true } : NotifyCond).conds[0]?) ∧
    GoChan.recv ⟨1, [], false⟩ = .wouldBlock := by
  refine ⟨by decide, by decide, by decide, by decide⟩

/-- C6: the claim says `Close` is idempotent-guarded, blocks until the loop
has closed every channel, and only then closes the source and returns its
error.  The guard exists (second call would return `errClosed`), but a
first `Close` on any dispatcher built by `NewNotifyCond` never returns: the
send on the nil `closeChannel` deadlocks, so the shutdown hand-off and the
`listener.Close()` call are unreachable.  The last conjunct shows the same
`Close` code with `closeChannel` initialized (the evident intent): it runs
`shutdown`, which closes the mapped channel, before returning the source
close error. -/
theorem Close_never_returns :
    NewNotifyCond.Close none
      = .deadlocked { NewNotifyCond with closed := true } ∧
    NotifyCond.Close { NewNotifyCond with closed := true } none = .alreadyClosed ∧
    NotifyCond.Close
      { conds := [⟨1, [], false⟩], channels := [("work", 0)], closed := false,
        broadcastOnPingTimeout := false, closeChannelNil := false }
      (some (.sourceError "close failed"))
      = .returned (some (.sourceError "close failed"))
          { conds := [⟨1, [], true⟩], channels := [("work", 0)], closed := true,
            broadcastOnPingTimeout := false, closeChannelNil := false } := by
  refine ⟨by decide, by decide, by decide⟩

/-- C7: the claim says the keepalive timer arms only once an interval has
been set, so with no interval set no timer-driven probe or broadcast
occurs.  The code violates this: `time.NewTimer(1)` arms a one-nanosecond
timer before the loop runs, and the loop's first `pingTimer.Stop()`
neither prevents a fire that already happened nor drains `pingTimer.C`, so
the select can service `<-pingTimer.C` and run `pingTimeout` although
`pingInterval` is still nil — issuing a probe, and, exactly when
`broadcastOnPingTimeout` is set at that moment, also broadcasting the nil
marker (third conjunct; fourth shows no broadcast when the flag is unset,
and the last that `timerFire` is not ready when no fire is pending). -/
theorem timer_fires_with_no_interval_set :
    (mainDispatcherInit.pingInterval = none ∧ mainDispatcherInit.timerArmed = true) ∧
    loopStep NewNotifyCond (timerElapse mainDispatcherInit) .timerFire none
      = some ⟨NewNotifyCond, ⟨none, false, false⟩, true, false⟩ ∧
    loopStep
      { conds := [⟨1, [], false⟩], channels := [("a", 0)], closed := false,
        broadcastOnPingTimeout := true, closeChannelNil := true }
      (timerElapse mainDispatcherInit) .timerFire (some (.sourceError "probe failed"))
      = some ⟨{ conds := [⟨1, [none], false⟩], channels := [("a", 0)], closed := false,
                broadcastOnPingTimeout := true, closeChannelNil := true },
              ⟨none, false, false⟩, true, false⟩ ∧
    loopStep
      { conds := [⟨1, [], false⟩], channels := [("a", 0)], closed := false,
        broadcastOnPingTimeout := false, closeChannelNil := true }
      (timerElapse mainDispatcherInit) .timerFire none
      = some ⟨{ conds := [⟨1, [], false⟩], channels := [("a", 0)], closed := false,
                broadcastOnPingTimeout := false, closeChannelNil := true },
              ⟨none, false, false⟩, true, false⟩ ∧
    loopStep NewNotifyCond mainDispatcherInit .timerFire none = none := by
  refine ⟨⟨by decide, by decide⟩, by decide, by decide, by decide, by decide⟩

/-- C2: `Listen` fails with `errClosed` when the dispatcher is closed, with
`pq.ErrChannelAlreadyOpen` when a live subscription for the topic exists
(in both cases changing nothing), and otherwise creates a fresh capacity-1
channel, inserts the topic-to-index mapping, then asks the source to
subscribe: on source failure the insertion is rolled back — the map and
every dispatcher field are exactly the original ones again, only the
discarded unreferenced channel value remains in the arena — and the source
error is returned; on success the new channel is returned. -/
theorem Listen_spec (s : NotifyCond) (t : String) (e : PQError) :
    (s.closed = true → ∀ r, s.Listen t r = some (.error .errClosed, s)) ∧
    (s.closed = false → (mapLookup s.channels t).isSome →
      ∀ r, s.Listen t r = some (.error .errChannelAlreadyOpen, s)) ∧
    (s.closed = false → mapLookup s.channels t = none →
      s.Listen t none = some (.ok s.conds.length,
        { s with conds := s.conds ++ [⟨1, [], false⟩],
                 channels := s.channels ++ [(t, s.conds.length)] }) ∧
      s.Listen t (some e)
        = some (.error e, { s with conds := s.conds ++ [⟨1, [], false⟩] })) :=
  ⟨fun h r => Listen_closed r h,
   fun h1 h2 r => Listen_dup r h1 h2,
   fun h1 h2 => ⟨Listen_ok h1 h2, Listen_rollback e h1 h2⟩⟩

/-- Witness for `Listen_spec`: on a fresh dispatcher, `Listen("a")` with a
cooperating source returns channel index 0 and installs the mapping, and
with a failing source returns the source error with the mapping rolled
back. -/
theorem Listen_spec_witness :
    NewNotifyCond.Listen "a" none
      = some (.ok 0, ⟨[⟨1, [], false⟩], [("a", 0)], false, false, true⟩) ∧
    NewNotifyCond.Listen "a" (some (.sourceError "subscribe failed"))
      = some (.error (.sourceError "subscribe failed"),
          ⟨[⟨1, [], false⟩], [], false, false, true⟩) := by
  obtain ⟨-, -, h3⟩ := Listen_spec NewNotifyCond "a" (.sourceError "subscribe failed")
  obtain ⟨hok, hfail⟩ := h3 rfl rfl
  constructor
  · rw [hok]
    decide
  · rw [hfail]
    decide

/-- C3: on any reachable dispatcher, `Unlisten` fails with `errClosed` when
the dispatcher is closed and with `pq.ErrChannelNotOpen` when the topic has
no live subscription; when the source unsubscribe fails the state is
returned completely unchanged (the subscription stays intact); on success
the mapping is removed and the channel — open until that moment — is closed
exactly once (closing that channel a second time would panic).  An
inconsistency between the map and the channel being removed makes
`removeChannel` panic rather than return an error. -/
theorem Unlisten_spec (s : NotifyCond) (t : String) (e : PQError)
    (h : Reachable s) :
    (s.closed = true → ∀ r, s.Unlisten t r = some (some .errClosed, s)) ∧
    (s.closed = false → mapLookup s.channels t = none →
      ∀ r, s.Unlisten t r = some (some .errChannelNotOpen, s)) ∧
    (∀ id, s.closed = false → mapLookup s.channels t = some id →
      s.Unlisten t (some e) = some (some e, s) ∧
      ∃ c, s.conds[id]? = some c ∧ c.isClosed = false ∧
        s.Unlisten t none = some (none,
          setCond { s with channels := mapDelete s.channels t } id
            { c with isClosed := true }) ∧
        GoChan.closeChan { c with isClosed := true } = none) ∧
    (mapLookup s.channels t = none → ∀ id, s.removeChannel t id = none) ∧
    (∀ id id2, mapLookup s.channels t = some id2 → id2 ≠ id →
      s.removeChannel t id = none) := by
  have hwf := reachable_wf h
  refine ⟨fun hcl r => Unlisten_closed r hcl,
    fun h1 h2 r => Unlisten_absent r h1 h2,
    fun id h1 hl => ?_, fun hl id => ?_, fun id id2 hl hne => ?_⟩
  · obtain ⟨hid, c, hc, hclosed, -, -⟩ := hwf.lookup_cond hl
    refine ⟨Unlisten_srcFail e h1 hl, c, hc, hclosed, Unlisten_ok h1 hl hc hclosed, ?_⟩
    rw [GoChan.closeChan]
    rfl
  · simp [NotifyCond.removeChannel, hl]
  · simp [NotifyCond.removeChannel, hl, hne]

/-- The dispatcher state after `Listen("a")` on a fresh dispatcher is
reachable. -/
theorem reachable_sample :
    Reachable ⟨[⟨1, [], false⟩], [("a", 0)], false, false, true⟩ :=
  @Reachable.listenStep NewNotifyCond "a" none (Except.ok 0) _ Reachable.init (by decide)

/-- Witness for `Unlisten_spec`: deregistering `"a"` on a dispatcher where
it is live removes the mapping and closes its condition channel. -/
theorem Unlisten_spec_witness :
    NotifyCond.Unlisten ⟨[⟨1, [], false⟩], [("a", 0)], false, false, true⟩ "a" none
      = some (none, ⟨[⟨1, [], true⟩], [], false, false, true⟩) := by
  have hr : Reachable ⟨[⟨1, [], false⟩], [("a", 0)], false, false, true⟩ :=
    reachable_sample
  obtain ⟨-, -, h3, -, -⟩ :=
    Unlisten_spec ⟨[⟨1, [], false⟩], [("a", 0)], false, false, true⟩ "a"
      (.sourceError "x") hr
  obtain ⟨-, c, hc, -, hok, -⟩ := h3 0 rfl rfl
  have hceq : (⟨1, [], false⟩ : GoChan) = c := by
    have hx : (⟨[⟨1, [], false⟩], [("a", 0)], false, false, true⟩ : NotifyCond).conds[0]?
        = some (⟨1, [], false⟩ : GoChan) := rfl
    rw [hx] at hc
    exact Option.some_inj.mp hc
  rw [← hceq] at hok
  rw [hok]
  decide

/-- C4: on any reachable dispatcher, delivering a notification to topic `t`
never panics and afterwards every condition channel still holds at most one
pending value; the delivery does nothing when `t` is not registered,
enqueues the value exactly when `t`'s channel is empty and drops it
otherwise (coalescing), and a second delivery with no interleaved read
changes nothing further — so N notifications with no read are
observationally equivalent to one (presence, not count, is preserved). -/
theorem notify_coalesces (s : NotifyCond) (t : String) (v w : Option Notification)
    (h : Reachable s) :
    ∃ s2 : NotifyCond, s.notify t v = some s2 ∧
      (∀ (i : Nat) (c : GoChan), s2.conds[i]? = some c → c.buf.length ≤ 1) ∧
      (mapLookup s.channels t = none → s2 = s) ∧
      (∀ (id : Nat) (c : GoChan), mapLookup s.channels t = some id →
        s.conds[id]? = some c →
        s2.conds[id]? = some (if c.buf.isEmpty then { c with buf := [v] } else c)) ∧
      s2.notify t w = some s2 := by
  have hwf := reachable_wf h
  cases hl : mapLookup s.channels t with
  | none =>
    refine ⟨s, notify_unmapped v hl, ?_, fun _ => rfl, ?_, notify_unmapped w hl⟩
    · intro i c hc
      have hcm := List.getElem?_mem hc
      have hle := hwf.bufLe c hcm
      rw [hwf.capOne c hcm] at hle
      exact hle
    · intro id c hl2
      cases hl2
  | some id =>
    obtain ⟨hid, c, hc, hclosed, hcap, hbuf⟩ := hwf.lookup_cond hl
    have hstep := notify_mapped (n := v) hl hc hclosed
    rw [capOne_send_eq hcap] at hstep
    obtain ⟨c', hc'⟩ :
        ∃ c', (if c.buf.isEmpty then { c with buf := [v] } else c) = c' := ⟨_, rfl⟩
    rw [hc'] at hstep
    have hwf2 := WF_notify hwf hstep
    have hcset : (setCond s id c').conds[id]? = some c' := by
      show (s.conds.set id c')[id]? = some c'
      exact List.getElem?_set_self hid
    refine ⟨setCond s id c', hstep, ?_, ?_, ?_, ?_⟩
    · intro i d hd
      have hdm := List.getElem?_mem hd
      have hle := hwf2.bufLe d hdm
      rw [hwf2.capOne d hdm] at hle
      exact hle
    · intro h2
      cases h2
    · intro id2 c2 hl2 hc2
      have hideq : id2 = id := (Option.some_inj.mp hl2).symm
      rw [hideq] at hc2
      have hceq : c2 = c := by
        rw [hc] at hc2
        exact (Option.some_inj.mp hc2).symm
      rw [hideq, hceq, hc']
      exact hcset
    · have hl2 : mapLookup (setCond s id c').channels t = some id := hl
      have hcl2 : c'.isClosed = false := by
        rw [← hc']
        by_cases hbe : c.buf.isEmpty = true
        · rw [if_pos hbe]
          exact hclosed
        · rw [if_neg hbe]
          exact hclosed
      have hcap2 : c'.cap = 1 := by
        rw [← hc']
        by_cases hbe : c.buf.isEmpty = true
        · rw [if_pos hbe]
          exact hcap
        · rw [if_neg hbe]
          exact hcap
      have hstep2 := notify_mapped (n := w) hl2 hcset hcl2
      rw [capOne_send_eq hcap2] at hstep2
      have hfull : c'.buf.isEmpty = false := by
        rw [← hc']
        by_cases hbe : c.buf.isEmpty = true
        · rw [if_pos hbe]
          rfl
        · rw [if_neg hbe]
          cases hb2 : c.buf.isEmpty with
          | false => rfl
          | true => exact absurd hb2 hbe
      have hdrop : (if c'.buf.isEmpty = true then { c' with buf := [w] } else c') = c' := by
        rw [hfull]
        simp
      rw [hdrop] at hstep2
      have hss : setCond (setCond s id c') id c' = setCond s id c' := by
        show ({ s with conds := (s.conds.set id c').set id c' } : NotifyCond)
          = { s with conds := s.conds.set id c' }
        rw [List.set_set]
      rw [hss] at hstep2
      exact hstep2

/-- Witness for `notify_coalesces`: delivering to a registered topic on a
reachable dispatcher never panics. -/
theorem notify_coalesces_witness :
    (NotifyCond.notify ⟨[⟨1, [], false⟩], [("a", 0)], false, false, true⟩ "a"
      (some ⟨"a", 7, "payload"⟩)).isSome = true := by
  obtain ⟨s2, h1, -, -, -, -⟩ :=
    notify_coalesces ⟨[⟨1, [], false⟩], [("a", 0)], false, false, true⟩ "a"
      (some ⟨"a", 7, "payload"⟩) none reachable_sample
  rw [h1]
  rfl

/-- C5: on any reachable dispatcher a resync (nil) event never panics and
performs the non-blocking nil-marker enqueue, with the same drop-if-full
coalescing, into exactly the channels registered at that moment: every
mapped channel receives the marker if it has room and keeps its pending
value otherwise, every channel index not mapped is untouched, the map
itself is unchanged, and a registration performed afterwards returns a
fresh empty channel — it does not retroactively receive the marker. -/
theorem broadcast_delivers (s : NotifyCond) (h : Reachable s) :
    ∃ s2 : NotifyCond, s.broadcast = some s2 ∧ s2.channels = s.channels ∧
      (∀ (t : String) (id : Nat), mapLookup s.channels t = some id →
        ∃ c, s.conds[id]? = some c ∧
          s2.conds[id]? = some (if c.buf.isEmpty then { c with buf := [none] } else c)) ∧
      (∀ j : Nat, (∀ t : String, mapLookup s.channels t ≠ some j) →
        s2.conds[j]? = s.conds[j]?) ∧
      (∀ (t : String) (r : Option PQError) (id3 : Nat) (s3 : NotifyCond),
        s2.Listen t r = some (.ok id3, s3) → s3.conds[id3]? = some ⟨1, [], false⟩) := by
  have hwf := reachable_wf h
  obtain ⟨s2, hb, hch, hcld, hlen, hmapped, huntouched⟩ :=
    broadcastAux_spec (s.channels.map Prod.fst) s hwf hwf.keysNodup
      (fun t ht => lookup_isSome_of_mem_keys ht)
  refine ⟨s2, hb, hch, ?_, ?_, ?_⟩
  · intro t id hl
    exact hmapped t id (List.mem_map_of_mem Prod.fst (mapLookup_mem hl)) hl
  · intro j hj
    exact huntouched j (fun t _ => hj t)
  · intro t r id3 s3 hls
    by_cases hcl : s2.closed = true
    · rw [Listen_closed r hcl] at hls
      simp at hls
    · rw [Bool.not_eq_true] at hcl
      cases hl2 : mapLookup s2.channels t with
      | some idx =>
        rw [Listen_dup r hcl (by rw [hl2]; rfl)] at hls
        simp at hls
      | none =>
        cases r with
        | some e =>
          rw [Listen_rollback e hcl hl2] at hls
          simp at hls
        | none =>
          rw [Listen_ok hcl hl2] at hls
          have h1 := Option.some_inj.mp hls
          have h2 : (Except.ok s2.conds.length : Except PQError Nat) = Except.ok id3 :=
            congrArg Prod.fst h1
          have h3 : ({ s2 with
                       conds := s2.conds ++ [⟨1, [], false⟩],
                       channels := s2.channels ++ [(t, s2.conds.length)] }
              : NotifyCond) = s3 :=
            congrArg Prod.snd h1
          have h4 : s2.conds.length = id3 := by
            injection h2
          rw [← h3, ← h4]
          show (s2.conds ++ [⟨1, [], false⟩])[s2.conds.length]? = some ⟨1, [], false⟩
          exact List.getElem?_concat_length _ _

/-- Witness for `broadcast_delivers`: a resync on a dispatcher with one
registered topic succeeds. -/
theorem broadcast_delivers_witness :
    (NotifyCond.broadcast ⟨[⟨1, [], false⟩], [("a", 0)], false, false, true⟩).isSome
      = true := by
  obtain ⟨s2, hb, -, -, -, -⟩ :=
    broadcast_delivers ⟨[⟨1, [], false⟩], [("a", 0)], false, false, true⟩ reachable_sample
  rw [hb]
  rfl

/-- C8: on an open dispatcher where topic `t` is free, with a cooperating
source, the sequence `Listen(t)`, `Unlisten(t)`, `Listen(t)` succeeds — a
topic is reusable after full teardown, the second registration receiving a
fresh channel — while `Listen(t)` when `t` is already live fails with
`pq.ErrChannelAlreadyOpen` and returns with the dispatcher state, the
existing subscription and its channel included, completely untouched. -/
theorem listen_unlisten_listen (s : NotifyCond) (t : String) (h0 : s.closed = false) :
    (mapLookup s.channels t = none →
      ∃ (s1 s2 : NotifyCond) (id3 : Nat) (s3 : NotifyCond),
        s.Listen t none = some (.ok s.conds.length, s1) ∧
        s1.Unlisten t none = some (none, s2) ∧
        s2.Listen t none = some (.ok id3, s3) ∧ id3 = s.conds.length + 1) ∧
    (∀ r, (mapLookup s.channels t).isSome →
      s.Listen t r = some (.error .errChannelAlreadyOpen, s)) := by
  constructor
  · intro hfree
    have hok1 := Listen_ok h0 hfree
    -- the state after the first Listen
    have hl1 : mapLookup (s.channels ++ [(t, s.conds.length)]) t = some s.conds.length := by
      rw [mapLookup_append hfree, mapLookup, if_pos rfl]
    have hc1 : (s.conds ++ [⟨1, [], false⟩])[s.conds.length]? = some ⟨1, [], false⟩ :=
      List.getElem?_concat_length _ _
    have hok2 :=
      Unlisten_ok (s := { s with
                          conds := s.conds ++ [⟨1, [], false⟩],
                          channels := s.channels ++ [(t, s.conds.length)] })
        h0 hl1 hc1 rfl
    -- the state after the Unlisten
    have hdel : mapDelete (s.channels ++ [(t, s.conds.length)]) t = s.channels :=
      mapDelete_append hfree
    have hset : (s.conds ++ [(⟨1, [], false⟩ : GoChan)]).set s.conds.length ⟨1, [], true⟩
        = s.conds ++ [⟨1, [], true⟩] := set_append_length _ _ _
    have hs2 : setCond
        { s with conds := s.conds ++ [⟨1, [], false⟩],
                 channels := mapDelete (s.channels ++ [(t, s.conds.length)]) t }
        s.conds.length ⟨1, [], true⟩
        = { s with conds := s.conds ++ [⟨1, [], true⟩], channels := s.channels } := by
      rw [setCond]
      rw [hdel]
      show ({ s with
              conds := (s.conds ++ [(⟨1, [], false⟩ : GoChan)]).set s.conds.length
                ⟨1, [], true⟩,
              channels := s.channels } : NotifyCond) = _
      rw [hset]
    rw [hs2] at hok2
    have hfree2 : mapLookup
        ({ s with conds := s.conds ++ [(⟨1, [], true⟩ : GoChan)], channels := s.channels }
          : NotifyCond).channels t = none := hfree
    have hok3 := Listen_ok (s := { s with
                                   conds := s.conds ++ [⟨1, [], true⟩],
                                   channels := s.channels })
      h0 hfree2
    refine ⟨_, _, _, _, hok1, hok2, hok3, ?_⟩
    show (s.conds ++ [(⟨1, [], true⟩ : GoChan)]).length = s.conds.length + 1
    rw [List.length_append]
    rfl
  · intro r hsome
    exact Listen_dup r h0 hsome

/-- Witness for `listen_unlisten_listen`: the register, deregister,
re-register round trip succeeds on a fresh dispatcher. -/
theorem listen_unlisten_listen_witness :
    NewNotifyCond.closed = false ∧ mapLookup NewNotifyCond.channels "a" = none ∧
    (NewNotifyCond.Listen "a" none).isSome = true := by
  refine ⟨rfl, rfl, ?_⟩
  obtain ⟨s1, s2, id3, s3, h1, -, -, -⟩ :=
    (listen_unlisten_listen NewNotifyCond "a" rfl).1 rfl
  rw [h1]
  rfl

/-- C10: the error of the keepalive probe launched by `pingTimeout` is
discarded entirely — the outcome is the same whatever the probe returns —
and a failing probe has no observable effect at the dispatcher's public
surface: `pingTimeout` never returns an error, never changes the
registration map or the closed flag, and never closes a condition channel;
only an explicit `Ping()` call surfaces the probe error to its caller. -/
theorem pingTimeout_discards_probe_error (s : NotifyCond) (e1 e2 : Option PQError)
    (h : Reachable s) :
    s.pingTimeout e1 = s.pingTimeout e2 ∧
    (∃ s2 : NotifyCond, s.pingTimeout e1 = some s2 ∧ s2.channels = s.channels ∧
      s2.closed = s.closed ∧
      (∀ (i : Nat) (c c2 : GoChan), s.conds[i]? = some c → s2.conds[i]? = some c2 →
        c2.isClosed = c.isClosed)) ∧
    (∀ e, NotifyCond.Ping e = e) := by
  have hwf := reachable_wf h
  refine ⟨rfl, ?_, fun e => rfl⟩
  rw [NotifyCond.pingTimeout]
  by_cases hb : s.broadcastOnPingTimeout = true
  · rw [if_pos hb]
    rw [NotifyCond.broadcast]
    obtain ⟨s2, hbr, hch, hcld, hlen, hmapped, huntouched⟩ :=
      broadcastAux_spec (s.channels.map Prod.fst) s hwf hwf.keysNodup
        (fun t ht => lookup_isSome_of_mem_keys ht)
    refine ⟨s2, hbr, hch, hcld, ?_⟩
    intro i c c2 hc hc2
    by_cases hex : ∃ t, mapLookup s.channels t = some i
    · obtain ⟨t, ht⟩ := hex
      obtain ⟨c0, hc0, hc0'⟩ :=
        hmapped t i (List.mem_map_of_mem Prod.fst (mapLookup_mem ht)) ht
      have hce : c0 = c := by
        rw [hc0] at hc
        exact Option.some_inj.mp hc
      rw [hc0'] at hc2
      have hc2' : (if c0.buf.isEmpty then { c0 with buf := [none] } else c0) = c2 :=
        Option.some_inj.mp hc2
      rw [← hc2', ← hce]
      by_cases hbe : c0.buf.isEmpty = true
      · rw [if_pos hbe]
      · rw [if_neg hbe]
    · push_neg at hex
      have hu := huntouched i (fun t _ => hex t)
      rw [hu, hc] at hc2
      rw [Option.some_inj.mp hc2]
  · rw [if_neg hb]
    refine ⟨s, rfl, rfl, rfl, ?_⟩
    intro i c c2 hc hc2
    rw [hc] at hc2
    rw [Option.some_inj.mp hc2]

/-- Witness for `pingTimeout_discards_probe_error`: on a fresh dispatcher
the timer path behaves identically for a failing and a succeeding probe,
and `Ping` surfaces the error. -/
theorem pingTimeout_discards_probe_error_witness :
    NotifyCond.pingTimeout NewNotifyCond (some (.sourceError "probe failed"))
      = NotifyCond.pingTimeout NewNotifyCond none ∧
    NotifyCond.Ping (some (.sourceError "probe failed"))
      = some (.sourceError "probe failed") := by
  obtain ⟨h1, -, h3⟩ :=
    pingTimeout_discards_probe_error NewNotifyCond (some (.sourceError "probe failed"))
      none Reachable.init
  exact ⟨h1, h3 _⟩

/-- C9: the claim says `SetPingInterval` and `SetBroadcastOnPingTimeout`
perform no closed-state check, never return an error, and are accepted even
after `Close()` has begun, and that `SetPingInterval` blocks forever when
the one-slot buffer is already occupied and the loop no longer drains it.
The mechanism conjuncts hold of the code, but "accepted even after Close()
has begun" fails for `SetBroadcastOnPingTimeout`: the buggy `Close`
deadlocks while holding `s.lock`, so a later `SetBroadcastOnPingTimeout`
blocks forever on the mutex instead of being accepted. -/
theorem setters_after_close_begun :
    SetPingInterval none true 5 = .sent (some 5) ∧
    SetPingInterval none false 5 = .sent (some 5) ∧
    SetPingInterval (some 3) true 5 = .sent (some 5) ∧
    SetPingInterval (some 3) false 5 = .blockedForever ∧
    NewNotifyCond.Close none = .deadlocked { NewNotifyCond with closed := true } ∧
    NotifyCond.SetBroadcastOnPingTimeout { NewNotifyCond with closed := true } true true
      = .blockedOnLock ∧
    NotifyCond.SetBroadcastOnPingTimeout { NewNotifyCond with closed := true } false true
      = .done { NewNotifyCond with closed := true, broadcastOnPingTimeout := true } := by
  refine ⟨by decide, by decide, by decide, by decide, by decide, by decide, by decide⟩

end Pq
